import Mathlib

/-!
Shallow embedding of the unemployment-dashboard loader and renderer
(`src/app.py`): the CSV cleaning pipeline `load_data`, the scalar
metrics, the region filter, the groupby-mean bar data, and the
Streamlit result cache.

Cells of the in-memory table are modelled by `Cell`; a data frame is a
column-name list plus a list of rows.  Each step of `load_data`
(header trim, duplicate-column drop, rate-column rename, date parse,
row drop, numeric coercion) is a separate definition, composed in
`load_data`.
-/

namespace App

/-- A parsed calendar date (what `pd.to_datetime` produces). -/
structure SimpleDate where
  year : Nat
  month : Nat
  day : Nat
deriving DecidableEq, Repr

/-- A cell of the data frame: missing (NaN/NaT), a raw string, a parsed
date, or a numeric value. -/
inductive Cell where
  | na : Cell
  | str (s : String) : Cell
  | date (d : SimpleDate) : Cell
  | num (q : ℚ) : Cell
deriving DecidableEq, Repr

/-- An in-memory table: column names plus rows of cells. -/
structure Frame where
  cols : List String
  rows : List (List Cell)
deriving DecidableEq, Repr

/-- Reading a cell of a row at a column position; short rows read as
missing (pandas pads ragged rows with NaN). -/
def getCell (r : List Cell) (i : Nat) : Cell :=
  r[i]?.getD Cell.na

/-- `true` iff the cell is missing. -/
def Cell.isNa : Cell → Bool
  | Cell.na => true
  | _ => false

/- ### Character-list string utilities (used by the parsers) -/

/-- Does the first list start with the second? -/
def charsStartWith : List Char → List Char → Bool
  | _, [] => true
  | [], _ :: _ => false
  | a :: as, b :: bs => a = b && charsStartWith as bs

/-- Does the first list contain the second as a contiguous block?
Models Python's `in` substring test. -/
def charsContain : List Char → List Char → Bool
  | [], pat => pat.isEmpty
  | a :: as, pat => charsStartWith (a :: as) pat || charsContain as pat

/-- Python substring test `pat in s`. -/
def strContainsStr (s pat : String) : Bool :=
  charsContain s.toList pat.toList

/-- Strip leading and trailing whitespace (`str.strip()`). -/
def trimStr (s : String) : String :=
  String.mk (((s.toList.dropWhile Char.isWhitespace).reverse.dropWhile
    Char.isWhitespace).reverse)

/-- Split a character list on a separator character. -/
def splitChars (sep : Char) : List Char → List (List Char)
  | [] => [[]]
  | c :: cs =>
    let r := splitChars sep cs
    if c = sep then [] :: r
    else
      match r with
      | g :: gs => (c :: g) :: gs
      | [] => [[c]]

/-- Are all characters decimal digits (and the list non-empty)? -/
def allDigits (cs : List Char) : Bool :=
  !cs.isEmpty && cs.all Char.isDigit

/-- Decimal digits to a natural number. -/
def digitsToNat (cs : List Char) : Nat :=
  cs.foldl (fun n c => n * 10 + (c.toNat - 48)) 0

/- ### Date parsing (`pd.to_datetime(..., format="%d-%m-%Y")`) -/

/-- Gregorian leap year. -/
def isLeap (y : Nat) : Bool :=
  y % 4 = 0 && (y % 100 ≠ 0 || y % 400 = 0)

/-- Days in a month of a given year. -/
def daysInMonth (y m : Nat) : Nat :=
  if m = 2 then (if isLeap y then 29 else 28)
  else if m = 4 || m = 6 || m = 9 || m = 11 then 30
  else 31

/-- Strict day-month-year parse, `%d-%m-%Y`: three dash-separated
all-digit fields, day and month of one or two digits, year of four,
with a calendar-validity check.  Anything else fails. -/
def parseDate (s : String) : Option SimpleDate :=
  match splitChars '-' s.toList with
  | [ds, ms, ys] =>
    if allDigits ds && allDigits ms && allDigits ys
        && ds.length ≤ 2 && ms.length ≤ 2 && ys.length = 4 then
      let d := digitsToNat ds
      let m := digitsToNat ms
      let y := digitsToNat ys
      if 1 ≤ m && m ≤ 12 && 1 ≤ d && d ≤ daysInMonth y m then
        some ⟨y, m, d⟩
      else none
    else none
  | _ => none

/- ### Numeric parsing (`pd.to_numeric(..., errors="coerce")`) -/

/-- Parse a decimal numeral (optional sign, optional fractional part)
to a rational; fails on anything else. -/
def parseNum (s : String) : Option ℚ :=
  let cs := (trimStr s).toList
  let (neg, body) :=
    match cs with
    | '-' :: rest => (true, rest)
    | '+' :: rest => (false, rest)
    | _ => (false, cs)
  let build (ip fp : List Char) : Option ℚ :=
    if (allDigits ip || ip.isEmpty) && (allDigits fp || fp.isEmpty)
        && !(ip.isEmpty && fp.isEmpty) then
      let den : Nat := 10 ^ fp.length
      let numv : Int := (digitsToNat ip * den + digitsToNat fp : Nat)
      some (mkRat (if neg then -numv else numv) den)
    else none
  match splitChars '.' body with
  | [ip] => build ip []
  | [ip, fp] => build ip fp
  | _ => none

/- ### CSV field parsing (`read_csv` with `skipinitialspace` and
`na_values=["", " "]`) -/

/-- One raw CSV field to a cell: leading spaces stripped, blank fields
become missing. -/
def parseField (s : String) : Cell :=
  let t := s.toList.dropWhile (fun c => c = ' ')
  if t.isEmpty then Cell.na else Cell.str (String.mk t)

/-- One raw CSV data line to a row of cells. -/
def parseLine (s : String) : List Cell :=
  (splitChars ',' s.toList).map (fun cs => parseField (String.mk cs))

/-- A raw CSV (header line plus data lines) to the initial frame. -/
def parseCSV (header : String) (lines : List String) : Frame :=
  { cols := (splitChars ',' header.toList).map (fun cs =>
      String.mk (cs.dropWhile (fun c => c = ' ')))
    rows := lines.map parseLine }

/- ### The `load_data` pipeline -/

/-- The stable rate-column name (`target` in `load_data`). -/
def target : String := "Estimated Unemployment Rate (%)"

/-- Index of the first column with the given name (`df["name"]`). -/
def colIdx (cols : List String) (name : String) : Option Nat :=
  match cols with
  | [] => none
  | c :: cs => if c = name then some 0 else (colIdx cs name).map (· + 1)

/-- Index of the first column satisfying a predicate. -/
def colIdxP (p : String → Bool) (cols : List String) : Option Nat :=
  match cols with
  | [] => none
  | c :: cs => if p c then some 0 else (colIdxP p cs).map (· + 1)

/-- `~df.columns.duplicated()`: positional keep-mask, keeping a column
iff its name has not occurred before. -/
def keepMask (seen : List String) : List String → List Bool
  | [] => []
  | c :: cs => decide (c ∉ seen) :: keepMask (c :: seen) cs

/-- Restrict a list to the positions the mask keeps. -/
def applyMask {α : Type} : List Bool → List α → List α
  | b :: ms, a :: as => if b then a :: applyMask ms as else applyMask ms as
  | _, _ => []

/-- Lines 20-21 of `load_data`: `df.columns = df.columns.str.strip()`
then `df = df.loc[:, ~df.columns.duplicated()]`. -/
def clean_headers (f : Frame) : Frame :=
  let cols := f.cols.map trimStr
  let m := keepMask [] cols
  { cols := applyMask m cols, rows := f.rows.map (applyMask m) }

/-- Does the column name contain the substring `"Unemployment Rate"`? -/
def hasRateName (c : String) : Bool :=
  strContainsStr c "Unemployment Rate"

/-- Lines 24-29 of `load_data`: keep the frame when the target name is
present; otherwise rename the first column whose name contains
`"Unemployment Rate"` to the target, or raise `KeyError`. -/
def rename_step (f : Frame) : Except String Frame :=
  if target ∈ f.cols then Except.ok f
  else
    match f.cols.filter hasRateName with
    | [] => Except.error "Unemployment column not found in CSV"
    | m :: _ =>
      Except.ok { f with cols := f.cols.map (fun c => if c = m then target else c) }

/-- `pd.to_datetime` on one cell with `errors="coerce"`. -/
def cellParseDate : Cell → Cell
  | Cell.str s =>
    match parseDate s with
    | some d => Cell.date d
    | none => Cell.na
  | Cell.date d => Cell.date d
  | _ => Cell.na

/-- Line 32 of `load_data`: parse the `Date` column in place
(`KeyError` when the column is absent). -/
def parse_dates (f : Frame) : Except String Frame :=
  match colIdx f.cols "Date" with
  | none => Except.error "Date"
  | some i =>
    Except.ok { f with rows := f.rows.map (fun r => r.set i (cellParseDate (getCell r i))) }

/-- Line 35 of `load_data`: `df.dropna(subset=["Region", "Date"])`. -/
def drop_na_rows (f : Frame) : Except String Frame :=
  match colIdx f.cols "Region", colIdx f.cols "Date" with
  | some iR, some iD =>
    Except.ok { f with
      rows := f.rows.filter (fun r =>
        !(getCell r iR).isNa && !(getCell r iD).isNa) }
  | _, _ => Except.error "Region or Date column missing"

/-- `pd.to_numeric` on one cell with `errors="coerce"`. -/
def cellParseNum : Cell → Cell
  | Cell.str s =>
    match parseNum s with
    | some q => Cell.num q
    | none => Cell.na
  | Cell.num q => Cell.num q
  | _ => Cell.na

/-- Line 38 of `load_data`: coerce the rate column to numeric in
place. -/
def coerce_rate (f : Frame) : Frame :=
  match colIdx f.cols target with
  | none => f
  | some i =>
    { f with rows := f.rows.map (fun r => r.set i (cellParseNum (getCell r i))) }

/-- The whole cleaning pipeline of `load_data`, as a function of the
parsed CSV frame. -/
def load_data (f : Frame) : Except String Frame :=
  match rename_step (clean_headers f) with
  | Except.error e => Except.error e
  | Except.ok f2 =>
    match parse_dates f2 with
    | Except.error e => Except.error e
    | Except.ok f3 =>
      match drop_na_rows f3 with
      | Except.error e => Except.error e
      | Except.ok f4 => Except.ok (coerce_rate f4)

/- ### Aggregates and views -/

/-- The numeric reading of the cell at a column position. -/
def rateAt (i : Nat) (r : List Cell) : Option ℚ :=
  match getCell r i with
  | Cell.num q => some q
  | _ => none

/-- The rate column as optional rationals (missing and non-numeric
cells are `none`). -/
def colVals (f : Frame) (name : String) : List (Option ℚ) :=
  match colIdx f.cols name with
  | some i => f.rows.map (rateAt i)
  | none => []

/-- A string column as optional strings. -/
def colStrVals (f : Frame) (name : String) : List (Option String) :=
  match colIdx f.cols name with
  | some i =>
    f.rows.map (fun r =>
      match getCell r i with
      | Cell.str s => some s
      | _ => none)
  | none => []

/-- Pandas `.mean()`: arithmetic mean of the present values, `NaN` on
an all-missing column. -/
def meanOpt (l : List (Option ℚ)) : Option ℚ :=
  let vs := l.filterMap id
  if vs.isEmpty then none else some (vs.sum / vs.length)

/-- Pandas `.max()`: maximum of the present values. -/
def maxOpt (l : List (Option ℚ)) : Option ℚ :=
  match l.filterMap id with
  | [] => none
  | v :: vs => some (vs.foldl max v)

/-- `df[unemp_col].mean()`. -/
def avg_unemp (f : Frame) : Option ℚ := meanOpt (colVals f target)

/-- `df[unemp_col].max()`. -/
def max_unemp (f : Frame) : Option ℚ := maxOpt (colVals f target)

/-- `df[df["Region"] == region]`. -/
def region_df (f : Frame) (region : String) : Frame :=
  match colIdx f.cols "Region" with
  | some i =>
    { f with rows := f.rows.filter (fun r => decide (getCell r i = Cell.str region)) }
  | none => { f with rows := [] }

/-- What the per-region section renders. -/
inductive RegionView where
  | warning (msg : String) : RegionView
  | chart (data : Frame) : RegionView
deriving DecidableEq, Repr

/-- Lines 151-162: `st.warning(...)` on an empty filter, else the
time-series chart over the filtered rows. -/
def render_region (f : Frame) (region : String) : RegionView :=
  let rd := region_df f region
  if rd.rows.isEmpty then RegionView.warning "No data available for the selected region."
  else RegionView.chart rd

/-- First occurrences of each value, in order of appearance. -/
def uniqAux (seen : List String) : List String → List String
  | [] => []
  | c :: cs => if c ∈ seen then uniqAux seen cs else c :: uniqAux (c :: seen) cs

/-- The distinct `Region` values (groupby keys; missing keys are
skipped, as pandas does). -/
def uniqueRegions (f : Frame) : List String :=
  uniqAux [] ((colStrVals f "Region").filterMap id)

/-- `df.groupby("Region")[unemp_col].mean()` at one key. -/
def groupMean (f : Frame) (region : String) : Option ℚ :=
  meanOpt (colVals (region_df f region) target)

/-- Sort key of a bar-chart entry: `NaN` means sort last
(`na_position="last"` under a descending sort). -/
def rateKey (p : String × Option ℚ) : WithBot ℚ :=
  match p.2 with
  | some q => (q : WithBot ℚ)
  | none => ⊥

/-- The descending-by-mean order of `sort_values(ascending=False)`. -/
def raRel (a b : String × Option ℚ) : Prop := rateKey b ≤ rateKey a

instance : DecidableRel raRel := fun a b =>
  inferInstanceAs (Decidable (rateKey b ≤ rateKey a))

instance : IsTotal (String × Option ℚ) raRel :=
  ⟨fun a b => (le_total (rateKey b) (rateKey a)).imp id id⟩

instance : IsTrans (String × Option ℚ) raRel :=
  ⟨fun _ _ _ hab hbc => le_trans hbc hab⟩

/-- Lines 187-192: group by `Region`, mean rate per group, sorted
descending by mean rate. -/
def region_avg (f : Frame) : List (String × Option ℚ) :=
  List.insertionSort raRel ((uniqueRegions f).map (fun g => (g, groupMean f g)))

/- ### The Streamlit result cache (`@st.cache_data`) -/

/-- Process state of the cached loader: the memoized table, if any,
and how many times the file has been read. -/
structure LoadState where
  cache : Option Frame
  reads : Nat
deriving DecidableEq, Repr

/-- The state before the first call. -/
def initState : LoadState := { cache := none, reads := 0 }

/-- One call of the cached `load_data`: a cache hit returns the stored
table without reading the file; a miss reads and cleans the file,
storing the table on success (exceptions are not cached). -/
def call_load (file : Frame) (s : LoadState) : Except String Frame × LoadState :=
  match s.cache with
  | some t => (Except.ok t, s)
  | none =>
    match load_data file with
    | Except.ok t => (Except.ok t, { cache := some t, reads := s.reads + 1 })
    | Except.error e => (Except.error e, { cache := none, reads := s.reads + 1 })

/-!
### Helper lemmas
-/

/-- A found column index is in bounds and points at the name. -/
theorem colIdx_spec {cols : List String} {name : String} {i : Nat}
    (h : colIdx cols name = some i) : cols[i]? = some name := by
  induction cols generalizing i with
  | nil => simp [colIdx] at h
  | cons c cs ih =>
    by_cases hc : c = name
    · simp [colIdx, hc] at h
      subst h
      simp [hc]
    · simp [colIdx, hc] at h
      obtain ⟨j, hj, rfl⟩ := h
      simpa using ih hj

/-- `colIdx` fails exactly on absent names. -/
theorem colIdx_eq_none_iff {cols : List String} {name : String} :
    colIdx cols name = none ↔ name ∉ cols := by
  induction cols with
  | nil => simp [colIdx]
  | cons c cs ih =>
    by_cases hc : c = name
    · simp [colIdx, hc]
    · simp [colIdx, hc, ih, Option.map_eq_none, Ne.symm hc]

/-- A found predicate index is in bounds, points at a matching name. -/
theorem colIdxP_spec {p : String → Bool} {cols : List String} {i : Nat}
    (h : colIdxP p cols = some i) : ∃ c, cols[i]? = some c ∧ p c = true := by
  induction cols generalizing i with
  | nil => simp [colIdxP] at h
  | cons c cs ih =>
    by_cases hc : p c
    · simp [colIdxP, hc] at h
      subst h
      exact ⟨c, by simp, hc⟩
    · simp [colIdxP, hc] at h
      obtain ⟨j, hj, rfl⟩ := h
      obtain ⟨d, hd, hpd⟩ := ih hj
      exact ⟨d, by simpa using hd, hpd⟩

/-- `colIdxP` fails exactly when no name matches. -/
theorem colIdxP_eq_none_iff {p : String → Bool} {cols : List String} :
    colIdxP p cols = none ↔ ∀ c ∈ cols, ¬ p c := by
  induction cols with
  | nil => simp [colIdxP]
  | cons c cs ih =>
    by_cases hc : p c
    · simp [colIdxP, hc]
    · simp [colIdxP, hc, ih, Option.map_eq_none]

/-- Setting one cell leaves the others readable unchanged. -/
theorem getCell_set_ne {r : List Cell} {i j : Nat} {c : Cell} (h : i ≠ j) :
    getCell (r.set i c) j = getCell r j := by
  simp [getCell, List.getElem?_set_ne h]

/-- Membership in the duplicate-dropped column list. -/
theorem mem_dedupKeep {seen cols : List String} {c : String} :
    c ∈ applyMask (keepMask seen cols) cols ↔ (c ∈ cols ∧ c ∉ seen) := by
  induction cols generalizing seen with
  | nil => simp [keepMask, applyMask]
  | cons d ds ih =>
    by_cases hd : d ∈ seen
    · have hstep : applyMask (keepMask seen (d :: ds)) (d :: ds)
          = applyMask (keepMask (d :: seen) ds) ds := by
        simp only [keepMask, applyMask, decide_eq_true_eq]
        rw [if_neg (by simpa using hd)]
      rw [hstep, ih]
      constructor
      · rintro ⟨h1, h2⟩
        exact ⟨List.mem_cons_of_mem _ h1, fun hs => h2 (List.mem_cons_of_mem _ hs)⟩
      · rintro ⟨h1, h2⟩
        rcases List.mem_cons.mp h1 with rfl | h1
        · exact absurd hd h2
        · refine ⟨h1, fun hs => ?_⟩
          rcases List.mem_cons.mp hs with rfl | hs
          · exact h2 hd
          · exact h2 hs
    · have hstep : applyMask (keepMask seen (d :: ds)) (d :: ds)
          = d :: applyMask (keepMask (d :: seen) ds) ds := by
        simp only [keepMask, applyMask, decide_eq_true_eq]
        rw [if_pos (by simpa using hd)]
      rw [hstep]
      constructor
      · intro hmem
        rcases List.mem_cons.mp hmem with rfl | hmem
        · exact ⟨List.mem_cons_self _ _, hd⟩
        · obtain ⟨h1, h2⟩ := ih.mp hmem
          exact ⟨List.mem_cons_of_mem _ h1,
            fun hs => h2 (List.mem_cons_of_mem _ hs)⟩
      · rintro ⟨h1, h2⟩
        rcases List.mem_cons.mp h1 with rfl | h1
        · exact List.mem_cons_self _ _
        · by_cases hcd : c = d
          · subst hcd; exact List.mem_cons_self _ _
          · refine List.mem_cons_of_mem _ (ih.mpr ⟨h1, fun hs => ?_⟩)
            rcases List.mem_cons.mp hs with h | h
            · exact hcd h
            · exact h2 h

/-- The duplicate-dropped column list has no duplicates. -/
theorem nodup_dedupKeep (seen cols : List String) :
    (applyMask (keepMask seen cols) cols).Nodup := by
  induction cols generalizing seen with
  | nil => simp [keepMask, applyMask]
  | cons d ds ih =>
    by_cases hd : d ∈ seen
    · have hstep : applyMask (keepMask seen (d :: ds)) (d :: ds)
          = applyMask (keepMask (d :: seen) ds) ds := by
        simp only [keepMask, applyMask, decide_eq_true_eq]
        rw [if_neg (by simpa using hd)]
      rw [hstep]
      exact ih _
    · have hstep : applyMask (keepMask seen (d :: ds)) (d :: ds)
          = d :: applyMask (keepMask (d :: seen) ds) ds := by
        simp only [keepMask, applyMask, decide_eq_true_eq]
        rw [if_pos (by simpa using hd)]
      rw [hstep]
      refine List.Nodup.cons ?_ (ih _)
      intro hmem
      exact ((mem_dedupKeep.mp hmem).2) (List.mem_cons_self _ _)

/-- The cleaned header list has no duplicate names. -/
theorem clean_headers_nodup (f : Frame) : (clean_headers f).cols.Nodup :=
  nodup_dedupKeep [] (f.cols.map trimStr)

/-- Membership in the cleaned header list is membership among the
trimmed raw headers. -/
theorem mem_clean_headers {f : Frame} {c : String} :
    c ∈ (clean_headers f).cols ↔ c ∈ f.cols.map trimStr := by
  show c ∈ applyMask (keepMask [] (f.cols.map trimStr)) (f.cols.map trimStr) ↔ _
  rw [mem_dedupKeep]
  simp

/-- A successful rename leaves the target name present. -/
theorem rename_step_target_mem {g g2 : Frame}
    (h : rename_step g = Except.ok g2) : target ∈ g2.cols := by
  unfold rename_step at h
  by_cases ht : target ∈ g.cols
  · rw [if_pos ht] at h
    cases h
    exact ht
  · rw [if_neg ht] at h
    cases hf : g.cols.filter hasRateName with
    | nil => rw [hf] at h; cases h
    | cons m ms =>
      rw [hf] at h
      cases h
      have hm : m ∈ g.cols := List.mem_of_mem_filter (hf ▸ List.mem_cons_self m ms)
      simpa using ⟨m, hm, by simp⟩

/-- `parse_dates` never touches the column names. -/
theorem parse_dates_cols {g g3 : Frame} (h : parse_dates g = Except.ok g3) :
    g3.cols = g.cols := by
  unfold parse_dates at h
  cases hi : colIdx g.cols "Date" with
  | none => rw [hi] at h; cases h
  | some i => rw [hi] at h; cases h; rfl

/-- `drop_na_rows` never touches the column names. -/
theorem drop_na_rows_cols {g g4 : Frame} (h : drop_na_rows g = Except.ok g4) :
    g4.cols = g.cols := by
  unfold drop_na_rows at h
  cases hiR : colIdx g.cols "Region" with
  | none => rw [hiR] at h; cases h
  | some iR =>
    cases hiD : colIdx g.cols "Date" with
    | none => rw [hiR, hiD] at h; cases h
    | some iD => rw [hiR, hiD] at h; cases h; rfl

/-- `coerce_rate` never touches the column names. -/
theorem coerce_rate_cols (g : Frame) : (coerce_rate g).cols = g.cols := by
  unfold coerce_rate
  cases colIdx g.cols target <;> rfl

/-- `coerce_rate` never adds or removes rows. -/
theorem coerce_rate_rows_length (g : Frame) :
    (coerce_rate g).rows.length = g.rows.length := by
  unfold coerce_rate
  cases colIdx g.cols target <;> simp

/-- A successful `load_data` run decomposes into its four steps. -/
theorem load_data_ok_decomp {f t : Frame} (h : load_data f = Except.ok t) :
    ∃ g2 g3 g4, rename_step (clean_headers f) = Except.ok g2 ∧
      parse_dates g2 = Except.ok g3 ∧ drop_na_rows g3 = Except.ok g4 ∧
      t = coerce_rate g4 := by
  unfold load_data at h
  cases h2 : rename_step (clean_headers f) with
  | error e => rw [h2] at h; cases h
  | ok g2 =>
    rw [h2] at h
    dsimp only at h
    cases h3 : parse_dates g2 with
    | error e => rw [h3] at h; cases h
    | ok g3 =>
      rw [h3] at h
      dsimp only at h
      cases h4 : drop_na_rows g3 with
      | error e => rw [h4] at h; cases h
      | ok g4 =>
        rw [h4] at h
        dsimp only at h
        exact ⟨g2, g3, g4, rfl, h3, h4, by cases h; rfl⟩

/-!
### Concrete frames used as witnesses
-/

deriving instance DecidableEq for Except

/-- A well-formed one-row input. -/
def exGood : Frame :=
  { cols := ["Region", "Date", "Estimated Unemployment Rate (%)"]
    rows := [[Cell.str "A", Cell.str "01-03-2020", Cell.str "3.5"]] }

/-- The cleaned table of `exGood`. -/
def exGoodOut : Frame :=
  { cols := ["Region", "Date", "Estimated Unemployment Rate (%)"]
    rows := [[Cell.str "A", Cell.date ⟨2020, 3, 1⟩, Cell.num (mkRat 7 2)]] }

/-- Input with one well-formed date and one wrongly formatted date. -/
def exDates : Frame :=
  { cols := ["Region", "Date", "Estimated Unemployment Rate (%)"]
    rows := [[Cell.str "A", Cell.str "01-03-2020", Cell.str "1.0"],
             [Cell.str "B", Cell.str "2020/03/01", Cell.str "2.0"]] }

/-- The cleaned table of `exDates`: the malformed-date row is gone. -/
def exDatesOut : Frame :=
  { cols := ["Region", "Date", "Estimated Unemployment Rate (%)"]
    rows := [[Cell.str "A", Cell.date ⟨2020, 3, 1⟩, Cell.num (mkRat 1 1)]] }

/-- Input whose rate cell is not a number. -/
def exBadRate : Frame :=
  { cols := ["Region", "Date", "Estimated Unemployment Rate (%)"]
    rows := [[Cell.str "X", Cell.str "01-03-2020", Cell.str "abc"]] }

/-- The cleaned table of `exBadRate`: row kept, rate nulled. -/
def exBadRateOut : Frame :=
  { cols := ["Region", "Date", "Estimated Unemployment Rate (%)"]
    rows := [[Cell.str "X", Cell.date ⟨2020, 3, 1⟩, Cell.na]] }

/-- Input without the exact rate-column name but with two columns
whose names contain `"Unemployment Rate"`. -/
def exTwoMatches : Frame :=
  { cols := ["Region", "Date", "Estimated Unemployment Rate (%) original",
             "Urban Unemployment Rate"]
    rows := [[Cell.str "A", Cell.str "01-03-2020", Cell.str "3.5",
              Cell.str "4.5"]] }

/-- Input with no column whose name contains `"Unemployment Rate"`. -/
def exNoRate : Frame :=
  { cols := ["Region", "Date", "Foo"]
    rows := [[Cell.str "A", Cell.str "01-03-2020", Cell.str "3.5"]] }

/-!
### The claims
-/

/-- C4: `load_data` parses the `Date` column day-month-year:
`"01-03-2020"` parses to 2020-03-01, a wrong-format string such as
`"2020/03/01"` parses to null instead of raising, and the null-date
row is dropped from the returned table. -/
theorem date_parse_format_and_drop :
    (∀ c : Cell, cellParseDate c = Cell.na ∨ ∃ d, cellParseDate c = Cell.date d) ∧
    parseDate "01-03-2020" = some ⟨2020, 3, 1⟩ ∧
    parseDate "2020/03/01" = none ∧
    load_data exDates = Except.ok exDatesOut := by
  refine ⟨?_, by decide, by decide, by decide⟩
  intro c
  cases c with
  | na => exact Or.inl rfl
  | str s =>
    cases h : parseDate s with
    | none => exact Or.inl (by simp [cellParseDate, h])
    | some d => exact Or.inr ⟨d, by simp [cellParseDate, h]⟩
  | date d => exact Or.inr ⟨d, rfl⟩
  | num q => exact Or.inl rfl

/-- C7: numeric coercion of the rate column turns every unparsable
cell into null rather than raising, never adds or removes rows, and a
null-rate row with non-null Region and Date stays in the returned
table. -/
theorem rate_coercion_nulls_and_retains :
    (∀ g : Frame, (coerce_rate g).rows.length = g.rows.length) ∧
    (∀ s : String, parseNum s = none → cellParseNum (Cell.str s) = Cell.na) ∧
    parseNum "abc" = none ∧
    load_data exBadRate = Except.ok exBadRateOut := by
  refine ⟨coerce_rate_rows_length, ?_, by decide, by decide⟩
  intro s h
  simp [cellParseNum, h]

/-- C7 witness: the unparsable rate string of the concrete input is
coerced to a null cell. -/
theorem rate_coercion_nulls_and_retains_witness :
    cellParseNum (Cell.str "abc") = Cell.na :=
  rate_coercion_nulls_and_retains.2.1 "abc" (by decide)

/-- C9: an empty region filter renders the warning notice instead of
a chart; a non-empty filter renders the time-series chart. -/
theorem empty_region_warning :
    ∀ (f : Frame) (region : String),
    ((region_df f region).rows = [] →
      render_region f region =
        RegionView.warning "No data available for the selected region.") ∧
    ((region_df f region).rows ≠ [] →
      render_region f region = RegionView.chart (region_df f region)) := by
  intro f region
  constructor
  · intro h
    simp [render_region, h]
  · intro h
    simp [render_region, h]

/-- C9 witness: on the concrete table, an absent region warns and a
present region charts. -/
theorem empty_region_warning_witness :
    render_region exGood "Z" =
      RegionView.warning "No data available for the selected region." ∧
    render_region exGood "A" = RegionView.chart (region_df exGood "A") :=
  ⟨(empty_region_warning exGood "Z").1 (by decide),
   (empty_region_warning exGood "A").2 (by decide)⟩

/-- C8: the cached loader is idempotent: when the first call returns a
table, the second call returns the same table from the cache, the
process state is unchanged by it, and the file was read exactly
once. -/
theorem cached_load_idempotent (file t : Frame)
    (h : (call_load file initState).1 = Except.ok t) :
    (call_load file (call_load file initState).2).1 = Except.ok t ∧
    (call_load file (call_load file initState).2).2 = (call_load file initState).2 ∧
    ((call_load file initState).2).reads = 1 := by
  unfold call_load initState at h ⊢
  dsimp only at h ⊢
  cases hl : load_data file with
  | ok u =>
    rw [hl] at h
    dsimp only at h
    rw [Except.ok.injEq] at h
    subst h
    exact ⟨rfl, rfl, rfl⟩
  | error e =>
    rw [hl] at h
    simp at h

/-- C8 witness: idempotence at the concrete well-formed input. -/
theorem cached_load_idempotent_witness :
    (call_load exGood (call_load exGood initState).2).1 = Except.ok exGoodOut ∧
    (call_load exGood (call_load exGood initState).2).2 =
      (call_load exGood initState).2 ∧
    ((call_load exGood initState).2).reads = 1 :=
  cached_load_idempotent exGood exGoodOut (by decide)

/-- C5: the mean and max of the rate column ignore null rates: adding
a null-rate row anywhere changes neither metric. -/
theorem mean_max_ignore_null_rates
    (cols : List String) (l1 l2 : List (List Cell)) (r : List Cell) (i : Nat)
    (hi : colIdx cols target = some i) (hr : getCell r i = Cell.na) :
    avg_unemp ⟨cols, l1 ++ r :: l2⟩ = avg_unemp ⟨cols, l1 ++ l2⟩ ∧
    max_unemp ⟨cols, l1 ++ r :: l2⟩ = max_unemp ⟨cols, l1 ++ l2⟩ := by
  have hext : ∀ rows : List (List Cell),
      colVals ⟨cols, rows⟩ target = rows.map (rateAt i) := by
    intro rows
    simp [colVals, hi]
  have key : (colVals ⟨cols, l1 ++ r :: l2⟩ target).filterMap id
      = (colVals ⟨cols, l1 ++ l2⟩ target).filterMap id := by
    rw [hext, hext]
    simp [List.filterMap_append, rateAt, hr]
  constructor
  · simp only [avg_unemp, meanOpt]
    rw [key]
  · simp only [max_unemp, maxOpt]
    rw [key]

/-- C5 witness: at a concrete one-valid-row table, appending a
null-rate row changes neither mean nor max. -/
theorem mean_max_ignore_null_rates_witness :
    avg_unemp ⟨[target], [[Cell.num (mkRat 5 1)], [Cell.na]]⟩ =
      avg_unemp ⟨[target], [[Cell.num (mkRat 5 1)]]⟩ ∧
    max_unemp ⟨[target], [[Cell.num (mkRat 5 1)], [Cell.na]]⟩ =
      max_unemp ⟨[target], [[Cell.num (mkRat 5 1)]]⟩ :=
  mean_max_ignore_null_rates [target] [[Cell.num (mkRat 5 1)]] [] [Cell.na] 0
    (by decide) (by decide)

/-- On duplicate-free headers, renaming by the first matching name is
setting the first matching position: the filter is non-empty with head
`m`, and the by-name rename equals a positional update. -/
theorem rename_map_eq_set {p : String → Bool} :
    ∀ {cols : List String}, cols.Nodup → ∀ {i : Nat}, colIdxP p cols = some i →
    ∃ m ms, cols.filter p = m :: ms ∧
      cols.map (fun c => if c = m then target else c) = cols.set i target := by
  intro cols
  induction cols with
  | nil => intro _ i hi; simp [colIdxP] at hi
  | cons c cs ih =>
    intro hnd i hi
    by_cases hc : p c
    · have hi0 : i = 0 := by
        simp [colIdxP, hc] at hi
        exact hi.symm
      subst hi0
      refine ⟨c, cs.filter p, by rw [List.filter_cons_of_pos hc], ?_⟩
      have hrest : cs.map (fun x => if x = c then target else x) = cs := by
        have : ∀ x ∈ cs, (if x = c then target else x) = x := by
          intro x hx
          rw [if_neg]
          intro hxc
          subst hxc
          exact (List.nodup_cons.mp hnd).1 hx
        calc cs.map (fun x => if x = c then target else x) = cs.map id :=
              List.map_congr_left this
          _ = cs := List.map_id cs
      simp [hrest]
    · simp only [colIdxP, hc] at hi
      rw [if_neg (by simp [hc])] at hi
      obtain ⟨j, hj, rfl⟩ := Option.map_eq_some.mp hi
      obtain ⟨m, ms, hf, hmap⟩ := ih (List.nodup_cons.mp hnd).2 hj
      have hcm : c ≠ m := by
        intro hcm
        have hm : m ∈ cs.filter p := hf ▸ List.mem_cons_self m ms
        have := List.of_mem_filter hm
        rw [hcm] at hc
        exact hc this
      refine ⟨m, ms, by rw [List.filter_cons_of_neg hc]; exact hf, ?_⟩
      simp only [List.map_cons, if_neg hcm, hmap]
      rfl

/-- C1: when the exact rate-column name is absent after header
cleaning, the first column whose name contains `"Unemployment Rate"`
is renamed to it; when no column matches, `load_data` fails with the
descriptive `KeyError` message and produces no table. -/
theorem rate_column_fallback_or_error (f : Frame)
    (h : target ∉ (clean_headers f).cols) :
    (∀ i, colIdxP hasRateName (clean_headers f).cols = some i →
      rename_step (clean_headers f) =
        Except.ok { cols := (clean_headers f).cols.set i target
                    rows := (clean_headers f).rows }) ∧
    (colIdxP hasRateName (clean_headers f).cols = none →
      load_data f = Except.error "Unemployment column not found in CSV") := by
  constructor
  · intro i hi
    obtain ⟨m, ms, hf, hmap⟩ := rename_map_eq_set (clean_headers_nodup f) hi
    unfold rename_step
    rw [if_neg h, hf]
    rw [Except.ok.injEq]
    rw [Frame.mk.injEq]
    exact ⟨hmap, rfl⟩
  · intro hnone
    have hfil : (clean_headers f).cols.filter hasRateName = [] := by
      rw [List.filter_eq_nil_iff]
      intro c hc
      exact colIdxP_eq_none_iff.mp hnone c hc
    have hren : rename_step (clean_headers f) =
        Except.error "Unemployment column not found in CSV" := by
      unfold rename_step
      rw [if_neg h, hfil]
    unfold load_data
    rw [hren]

/-- C1 witness: on a concrete header set, the fallback renames the
first matching column, and a header set with no match makes
`load_data` fail with the `KeyError` message. -/
theorem rate_column_fallback_or_error_witness :
    rename_step (clean_headers exTwoMatches) =
      Except.ok { cols := (clean_headers exTwoMatches).cols.set 2 target
                  rows := (clean_headers exTwoMatches).rows } ∧
    load_data exNoRate = Except.error "Unemployment column not found in CSV" :=
  ⟨(rate_column_fallback_or_error exTwoMatches (by decide)).1 2 (by decide),
   (rate_column_fallback_or_error exNoRate (by decide)).2 (by decide)⟩

/-- C10: an exact-name match disables any renaming, and when the
fallback fires only the first matching column is renamed; every other
column keeps its name. -/
theorem rename_precedence (f : Frame) :
    (target ∈ (clean_headers f).cols →
      rename_step (clean_headers f) = Except.ok (clean_headers f)) ∧
    (∀ i, target ∉ (clean_headers f).cols →
      colIdxP hasRateName (clean_headers f).cols = some i →
      ∃ g2, rename_step (clean_headers f) = Except.ok g2 ∧
        g2.cols[i]? = some target ∧
        ∀ j, j ≠ i → g2.cols[j]? = (clean_headers f).cols[j]?) := by
  constructor
  · intro ht
    unfold rename_step
    rw [if_pos ht]
  · intro i ht hi
    obtain ⟨m, ms, hf, hmap⟩ := rename_map_eq_set (clean_headers_nodup f) hi
    refine ⟨{ cols := (clean_headers f).cols.set i target
              rows := (clean_headers f).rows }, ?_, ?_, ?_⟩
    · unfold rename_step
      rw [if_neg ht, hf]
      rw [Except.ok.injEq]
      rw [Frame.mk.injEq]
      exact ⟨hmap, rfl⟩
    · obtain ⟨c, hc, _⟩ := colIdxP_spec hi
      obtain ⟨hlt, _⟩ := List.getElem?_eq_some_iff.mp hc
      exact List.getElem?_set_eq_of_lt target hlt
    · intro j hj
      exact List.getElem?_set_ne (fun hij => hj hij.symm)

/-- C10 witness: with the exact name present nothing is renamed; with
two fallback matches only the first is renamed. -/
theorem rename_precedence_witness :
    rename_step (clean_headers exGood) = Except.ok (clean_headers exGood) ∧
    (∃ g2, rename_step (clean_headers exTwoMatches) = Except.ok g2 ∧
      g2.cols[2]? = some target ∧
      ∀ j, j ≠ 2 → g2.cols[j]? = (clean_headers exTwoMatches).cols[j]?) :=
  ⟨(rename_precedence exGood).1 (by decide),
   (rename_precedence exTwoMatches).2 2 (by decide) (by decide)⟩

/-- Input with two regions; region B has the larger mean rate. -/
def exTwoRegions : Frame :=
  { cols := ["Region", "Date", "Estimated Unemployment Rate (%)"]
    rows := [[Cell.str "A", Cell.date ⟨2020, 3, 1⟩, Cell.num (mkRat 2 1)],
             [Cell.str "B", Cell.date ⟨2020, 3, 1⟩, Cell.num (mkRat 4 1)],
             [Cell.str "B", Cell.date ⟨2020, 4, 1⟩, Cell.num (mkRat 6 1)]] }

/-- C6: the bar data pairs each distinct Region with the mean rate of
its rows, and the pairs come out sorted descending by mean rate. -/
theorem region_avg_grouped_sorted (f : Frame) :
    List.Sorted raRel (region_avg f) ∧
    (∀ p ∈ region_avg f, p.2 = groupMean f p.1) ∧
    List.Perm ((region_avg f).map Prod.fst) (uniqueRegions f) := by
  refine ⟨List.sorted_insertionSort raRel _, ?_, ?_⟩
  · intro p hp
    rw [region_avg, List.mem_insertionSort] at hp
    obtain ⟨g, _, rfl⟩ := List.mem_map.mp hp
    rfl
  · rw [region_avg]
    have h1 := (List.perm_insertionSort raRel
      ((uniqueRegions f).map (fun g => (g, groupMean f g)))).map Prod.fst
    rw [List.map_map] at h1
    have hid : (uniqueRegions f).map (Prod.fst ∘ fun g => (g, groupMean f g))
        = uniqueRegions f := by
      calc (uniqueRegions f).map (Prod.fst ∘ fun g => (g, groupMean f g))
          = (uniqueRegions f).map id := List.map_congr_left (fun a _ => rfl)
        _ = uniqueRegions f := List.map_id _
    rwa [hid] at h1

unseal Rat.add Rat.mul Rat.inv in
/-- C6 witness: at the concrete two-region table, the bar data pairs
region B with its group mean, and B sorts before A. -/
theorem region_avg_grouped_sorted_witness :
    ((("B" : String), some (mkRat 5 1)) : String × Option ℚ).2 =
      groupMean exTwoRegions "B" ∧
    List.Perm ((region_avg exTwoRegions).map Prod.fst)
      (uniqueRegions exTwoRegions) :=
  ⟨(region_avg_grouped_sorted exTwoRegions).2.1 ("B", some (mkRat 5 1))
      (by decide),
   (region_avg_grouped_sorted exTwoRegions).2.2⟩

/-- Counting is unchanged by a map that fixes exactly the counted
element's fibre. -/
theorem count_map_eq_of {f0 : String → String} {a : String}
    (hf : ∀ c, f0 c = a ↔ c = a) :
    ∀ l : List String, (l.map f0).count a = l.count a := by
  intro l
  induction l with
  | nil => rfl
  | cons c cs ih =>
    by_cases hc : c = a
    · subst hc
      simp [List.count_cons, ih, (hf c).mpr rfl]
    · have : f0 c ≠ a := fun h => hc ((hf c).mp h)
      simp [List.count_cons, ih, this, hc]

/-- A successful rename keeps the multiplicity of any name that is
neither the target nor a fallback match. -/
theorem rename_step_count_eq {g g2 : Frame} (h : rename_step g = Except.ok g2)
    {a : String} (ha1 : a ≠ target) (ha2 : hasRateName a = false) :
    g2.cols.count a = g.cols.count a := by
  unfold rename_step at h
  by_cases ht : target ∈ g.cols
  · rw [if_pos ht] at h
    cases h
    rfl
  · rw [if_neg ht] at h
    cases hf : g.cols.filter hasRateName with
    | nil => rw [hf] at h; cases h
    | cons m ms =>
      rw [hf] at h
      cases h
      refine count_map_eq_of ?_ g.cols
      intro c
      constructor
      · intro hc
        by_cases hcm : c = m
        · rw [if_pos hcm] at hc
          exact absurd hc.symm ha1
        · rwa [if_neg hcm] at hc
      · intro hc
        subst hc
        have hcm : c ≠ m := by
          intro hcm
          have hm : m ∈ g.cols.filter hasRateName := hf ▸ List.mem_cons_self m ms
          have := List.of_mem_filter hm
          rw [← hcm] at this
          rw [ha2] at this
          cases this
        rw [if_neg hcm]

/-- C3: header names are trimmed and only the first occurrence of a
duplicated name is kept, so a table loaded from a header repeating
`Region` has exactly one `Region` column. -/
theorem region_column_unique (f t : Frame)
    (hmem : "Region" ∈ f.cols.map trimStr)
    (h : load_data f = Except.ok t) :
    (clean_headers f).cols.Nodup ∧ t.cols.count "Region" = 1 := by
  refine ⟨clean_headers_nodup f, ?_⟩
  obtain ⟨g2, g3, g4, h2, h3, h4, rfl⟩ := load_data_ok_decomp h
  have hclean : (clean_headers f).cols.count "Region" = 1 :=
    List.count_eq_one_of_mem (clean_headers_nodup f)
      (mem_clean_headers.mpr hmem)
  have hren : g2.cols.count "Region" = (clean_headers f).cols.count "Region" :=
    rename_step_count_eq h2 (by decide) (by decide)
  rw [coerce_rate_cols, drop_na_rows_cols h4, parse_dates_cols h3, hren, hclean]

/-- Input whose raw header repeats `Region` (once with padding). -/
def exDupRegion : Frame :=
  { cols := [" Region", "Date", "Estimated Unemployment Rate (%)", "Region"]
    rows := [[Cell.str "A", Cell.str "01-03-2020", Cell.str "3.5",
              Cell.str "A"]] }

/-- The cleaned table of `exDupRegion`: one `Region` column. -/
def exDupRegionOut : Frame :=
  { cols := ["Region", "Date", "Estimated Unemployment Rate (%)"]
    rows := [[Cell.str "A", Cell.date ⟨2020, 3, 1⟩, Cell.num (mkRat 7 2)]] }

/-- C3 witness: the duplicated-Region input loads into a table with
exactly one Region column. -/
theorem region_column_unique_witness :
    (clean_headers exDupRegion).cols.Nodup ∧
    exDupRegionOut.cols.count "Region" = 1 :=
  region_column_unique exDupRegion exDupRegionOut (by decide) (by decide)

/-- A cell passing the not-missing Boolean test is not `Cell.na`. -/
theorem isNa_false_iff {c : Cell} : c.isNa = false ↔ c ≠ Cell.na := by
  cases c <;> simp [Cell.isNa]

/-- What a successful `drop_na_rows` produces: the Region and Date
columns exist and every surviving row is non-null in both. -/
theorem drop_na_rows_spec {g g4 : Frame} (h : drop_na_rows g = Except.ok g4) :
    ∃ iR iD, colIdx g.cols "Region" = some iR ∧ colIdx g.cols "Date" = some iD ∧
      g4.cols = g.cols ∧
      g4.rows = g.rows.filter (fun r =>
        !(getCell r iR).isNa && !(getCell r iD).isNa) := by
  unfold drop_na_rows at h
  cases hiR : colIdx g.cols "Region" with
  | none => rw [hiR] at h; cases h
  | some iR =>
    cases hiD : colIdx g.cols "Date" with
    | none => rw [hiR, hiD] at h; cases h
    | some iD =>
      rw [hiR, hiD] at h
      cases h
      exact ⟨iR, iD, rfl, rfl, rfl, rfl⟩

/-- C2: every row of a table returned by `load_data` has a non-null
Region and a non-null Date; null-Region or null-Date rows (including
fully blank input lines) never reach the returned table. -/
theorem cleaned_rows_nonnull (f t : Frame) (h : load_data f = Except.ok t) :
    ∃ iR iD, colIdx t.cols "Region" = some iR ∧ colIdx t.cols "Date" = some iD ∧
      ∀ r ∈ t.rows, getCell r iR ≠ Cell.na ∧ getCell r iD ≠ Cell.na := by
  obtain ⟨g2, g3, g4, h2, h3, h4, rfl⟩ := load_data_ok_decomp h
  obtain ⟨iR, iD, hiR, hiD, hcols, hrows⟩ := drop_na_rows_spec h4
  have hcolsT : (coerce_rate g4).cols = g3.cols := by
    rw [coerce_rate_cols, hcols]
  have hmemRow : ∀ r ∈ g4.rows, getCell r iR ≠ Cell.na ∧ getCell r iD ≠ Cell.na := by
    intro r hr
    rw [hrows] at hr
    have hp := List.of_mem_filter hr
    simp only [Bool.and_eq_true, Bool.not_eq_true'] at hp
    exact ⟨isNa_false_iff.mp hp.1, isNa_false_iff.mp hp.2⟩
  refine ⟨iR, iD, by rw [hcolsT]; exact hiR, by rw [hcolsT]; exact hiD, ?_⟩
  unfold coerce_rate
  cases hit : colIdx g4.cols target with
  | none => exact hmemRow
  | some iT =>
    intro r hr
    simp only at hr
    obtain ⟨r0, hr0, rfl⟩ := List.mem_map.mp hr
    have htgt : g4.cols[iT]? = some target := colIdx_spec hit
    have hreg : g4.cols[iR]? = some "Region" := by
      rw [hcols]; exact colIdx_spec hiR
    have hdat : g4.cols[iD]? = some "Date" := by
      rw [hcols]; exact colIdx_spec hiD
    have hTR : iT ≠ iR := by
      intro he
      rw [he, hreg] at htgt
      injection htgt with hx
      exact absurd hx (by decide)
    have hTD : iT ≠ iD := by
      intro he
      rw [he, hdat] at htgt
      injection htgt with hx
      exact absurd hx (by decide)
    rw [getCell_set_ne hTR, getCell_set_ne hTD]
    exact hmemRow r0 hr0

/-- C2 witness: the cleaned concrete table satisfies the non-null
invariant. -/
theorem cleaned_rows_nonnull_witness :
    ∃ iR iD, colIdx exGoodOut.cols "Region" = some iR ∧
      colIdx exGoodOut.cols "Date" = some iD ∧
      ∀ r ∈ exGoodOut.rows, getCell r iR ≠ Cell.na ∧ getCell r iD ≠ Cell.na :=
  cleaned_rows_nonnull exGood exGoodOut (by decide)

end App
